import Mathlib

/-!
Verification of the snarkOS per-connection peer record
(`node/router/src/peer/mod.rs`).

The Rust struct `Peer` keeps immutable identity data (connection side,
listening address), plain mutable scalars (version, node type, status) and
three `Arc<RwLock<...>>` cells (last-seen instant, block height, the
seen-messages replay cache).  We embed it shallowly:

* the `Arc<RwLock<...>>` cells become cell identifiers into an explicit
  `Heap` of three typed stores, so aliasing after `clone` is modelled
  faithfully (`derive(Clone)` copies the struct field-wise; cloning an
  `Arc` yields the same cell);
* `Instant` becomes a natural number of seconds; `Instant::now()` becomes
  an explicit `now` argument; `t.elapsed().as_secs()` becomes truncated
  subtraction `now - t`;
* `HashMap<(u16, u32), Instant>` becomes an association list whose
  `insert` replaces the value stored at an existing key, exactly as
  `HashMap::insert` does.
-/

namespace SnarkOSPeer

/-- Modelled from the spec: a connection-direction type with two variants
(Inbound, Outbound).  The concrete `ConnectionSide` lives in the external
`snarkos_node_tcp` crate, which is not part of this repository slice. -/
inductive ConnectionSide where
  | inbound
  | outbound
deriving DecidableEq, Repr

/-- Modelled from the spec: a node-classification type with four variants
(Beacon, Validator, Prover, Client) and a way to test which variant is held.
The concrete `NodeType` lives in the external `snarkos_node_executor` crate. -/
inductive NodeType where
  | beacon
  | validator
  | prover
  | client
deriving DecidableEq, Repr

/-- Modelled from the spec: `NodeType::is_beacon`. -/
def NodeType.is_beacon : NodeType → Bool
  | .beacon => true
  | _ => false

/-- Modelled from the spec: `NodeType::is_validator`. -/
def NodeType.is_validator : NodeType → Bool
  | .validator => true
  | _ => false

/-- Modelled from the spec: `NodeType::is_prover`. -/
def NodeType.is_prover : NodeType → Bool
  | .prover => true
  | _ => false

/-- Modelled from the spec: `NodeType::is_client`. -/
def NodeType.is_client : NodeType → Bool
  | .client => true
  | _ => false

/-- Modelled from the spec: an opaque peer-status representation
(`RawStatus` of the external executor crate), treated as an uninterpreted
value by this core. -/
structure RawStatus where
  code : Nat
deriving DecidableEq, Repr

/-- Modelled from the spec: a host:port address (`std::net::SocketAddr`),
uninterpreted here beyond equality. -/
structure SocketAddr where
  host : Nat
  port : Nat
deriving DecidableEq, Repr

/-- The model of `std::time::Instant`: seconds on a monotone clock. -/
abbrev Instant := Nat

/-- The replay cache `HashMap<(u16, u32), Instant>`: an association list from
(message ID, random nonce) pairs to instants, with at most one entry per key
when built by `SeenMap.insert`. -/
abbrev SeenMap := List ((Nat × Nat) × Nat)

/-- The model of `HashMap::insert`: replaces the value stored at an existing
key, otherwise adds a new entry. -/
def SeenMap.insert : SeenMap → Nat × Nat → Nat → SeenMap
  | [], k, v => [(k, v)]
  | e :: rest, k, v =>
    if e.1 = k then (k, v) :: rest else e :: SeenMap.insert rest k v

/-- The model of `HashMap::get`: the value stored at a key, if any. -/
def SeenMap.lookup : SeenMap → Nat × Nat → Option Nat
  | [], _ => none
  | e :: rest, k => if e.1 = k then some e.2 else SeenMap.lookup rest k

/-- The store of shared mutable cells standing behind the three
`Arc<RwLock<...>>` fields of `Peer`: one store per field type, each a map
from cell identifiers to contents plus a next-fresh-cell counter. -/
structure Heap where
  lsHeap : Nat → Instant
  bhHeap : Nat → Nat
  smHeap : Nat → SeenMap
  lsNext : Nat
  bhNext : Nat
  smNext : Nat

/-- The empty heap, before any `Peer` is allocated. -/
def Heap.empty : Heap :=
  { lsHeap := fun _ => 0
    bhHeap := fun _ => 0
    smHeap := fun _ => []
    lsNext := 0
    bhNext := 0
    smNext := 0 }

/-- The state for each connected peer (struct `Peer`).  The three
lock-wrapped fields hold cell identifiers into the `Heap`; the remaining
fields hold their values directly, as in the Rust struct. -/
structure Peer where
  side : ConnectionSide
  listening_addr : SocketAddr
  last_seen : Nat
  version : Nat
  node_type : NodeType
  status : RawStatus
  block_height : Nat
  seen_messages : Nat
deriving DecidableEq, Repr

/-- `Peer::new`: allocates the three cells (last seen set to the current
instant, block height to 0, seen messages to the empty map) and stores the
supplied scalars. -/
def Peer.new (h : Heap) (side : ConnectionSide) (listening_addr : SocketAddr)
    (version : Nat) (node_type : NodeType) (status : RawStatus)
    (now : Instant) : Heap × Peer :=
  ({ lsHeap := fun c => if c = h.lsNext then now else h.lsHeap c
     bhHeap := fun c => if c = h.bhNext then 0 else h.bhHeap c
     smHeap := fun c => if c = h.smNext then [] else h.smHeap c
     lsNext := h.lsNext + 1
     bhNext := h.bhNext + 1
     smNext := h.smNext + 1 },
   { side := side
     listening_addr := listening_addr
     last_seen := h.lsNext
     version := version
     node_type := node_type
     status := status
     block_height := h.bhNext
     seen_messages := h.smNext })

/-- `derive(Clone)` on `Peer`: a field-wise copy; `Arc::clone` yields a
handle to the same cell, so the cell identifiers are copied unchanged. -/
def Peer.clone (p : Peer) : Peer := p

/-- `Peer::ip`: the listening address. -/
def Peer.ip (p : Peer) : SocketAddr := p.listening_addr

/-- `Peer::last_seen`: reads the last-seen cell. -/
def Peer.lastSeen (h : Heap) (p : Peer) : Instant := h.lsHeap p.last_seen

/-- `Peer::node_type`. -/
def Peer.nodeType (p : Peer) : NodeType := p.node_type

/-- `Peer::is_beacon`. -/
def Peer.is_beacon (p : Peer) : Bool := p.node_type.is_beacon

/-- `Peer::is_validator`. -/
def Peer.is_validator (p : Peer) : Bool := p.node_type.is_validator

/-- `Peer::is_prover`. -/
def Peer.is_prover (p : Peer) : Bool := p.node_type.is_prover

/-- `Peer::is_client`. -/
def Peer.is_client (p : Peer) : Bool := p.node_type.is_client

/-- The seen-messages map of a peer: reads the replay-cache cell. -/
def Peer.seenMessages (h : Heap) (p : Peer) : SeenMap := h.smHeap p.seen_messages

/-- `Peer::message_frequency`: counts the cache entries whose elapsed time
(`now - t`, truncated) is at most 5 seconds. -/
def Peer.messageFrequency (h : Heap) (p : Peer) (now : Instant) : Nat :=
  ((Peer.seenMessages h p).filter (fun e => decide (now - e.2 ≤ 5))).length

/-- Modelled from the spec: `block_height()` is named in the query surface
as a pure read of the block-height cell; the accessor itself is not in the
repository slice, only the field and its initialisation are. -/
def Peer.blockHeight (h : Heap) (p : Peer) : Nat := h.bhHeap p.block_height

/-- `Peer::set_last_seen`: writes the last-seen cell through the lock
(`&self`, interior mutability). -/
def Peer.setLastSeen (h : Heap) (p : Peer) (t : Instant) : Heap :=
  { h with lsHeap := fun c => if c = p.last_seen then t else h.lsHeap c }

/-- `Peer::set_version` (`&mut self`): replaces the version scalar of this
copy of the struct; no shared cell is involved. -/
def Peer.setVersion (p : Peer) (v : Nat) : Peer := { p with version := v }

/-- `Peer::set_node_type` (`&mut self`): replaces the node-type scalar of
this copy of the struct. -/
def Peer.setNodeType (p : Peer) (k : NodeType) : Peer := { p with node_type := k }

/-- `Peer::set_status` (`&mut self`): replaces the status scalar of this
copy of the struct. -/
def Peer.setStatus (p : Peer) (s : RawStatus) : Peer := { p with status := s }

/-- `Peer::insert_seen_message`: inserts (message ID, random nonce) with the
current instant into the replay-cache cell. -/
def Peer.insertSeenMessage (h : Heap) (p : Peer) (message_id random_nonce : Nat)
    (now : Instant) : Heap :=
  { h with smHeap := fun c =>
      if c = p.seen_messages
      then SeenMap.insert (h.smHeap p.seen_messages) (message_id, random_nonce) now
      else h.smHeap c }

/-- Modelled from the spec: a block-height setter symmetric to
`set_last_seen` is implied by the spec's mutation surface but not shown in
the repository slice; it writes the block-height cell through its lock. -/
def Peer.setBlockHeight (h : Heap) (p : Peer) (b : Nat) : Heap :=
  { h with bhHeap := fun c => if c = p.block_height then b else h.bhHeap c }

/-- One mutating operation of the component, applied to a peer record.  The
query surface (`ip`, `last_seen`, `node_type`, the predicates,
`message_frequency`, `block_height`) is pure and touches no state, so only
the mutators appear. -/
inductive Op where
  | lastSeenUpd (t : Instant)
  | versionUpd (v : Nat)
  | nodeTypeUpd (k : NodeType)
  | statusUpd (s : RawStatus)
  | blockHeightUpd (b : Nat)
  | messageSeen (message_id random_nonce now : Nat)
deriving DecidableEq, Repr

/-- Applies one operation to the (heap, peer) state. -/
def applyOp : Heap × Peer → Op → Heap × Peer
  | (h, p), .lastSeenUpd t => (Peer.setLastSeen h p t, p)
  | (h, p), .versionUpd v => (h, Peer.setVersion p v)
  | (h, p), .nodeTypeUpd k => (h, Peer.setNodeType p k)
  | (h, p), .statusUpd s => (h, Peer.setStatus p s)
  | (h, p), .blockHeightUpd b => (Peer.setBlockHeight h p b, p)
  | (h, p), .messageSeen id n now => (Peer.insertSeenMessage h p id n now, p)

/-- Applies a sequence of operations to the (heap, peer) state. -/
def runOps (s : Heap × Peer) (ops : List Op) : Heap × Peer :=
  ops.foldl applyOp s

/-- A concrete state used by the witness theorems: a validator peer freshly
allocated in the empty heap at instant 100. -/
def stateW : Heap × Peer :=
  Peer.new Heap.empty ConnectionSide.inbound ⟨10, 4130⟩ 12 NodeType.validator ⟨0⟩ 100

/-- The witness peer. -/
def pW : Peer := stateW.2

/-- The witness heap after recording message (7, 42) at instant 100. -/
def hW : Heap := Peer.insertSeenMessage stateW.1 stateW.2 7 42 100

/-- A concrete operation sequence used by the witness theorems. -/
def opsW : List Op :=
  [Op.lastSeenUpd 150, Op.messageSeen 9 1 120, Op.versionUpd 13,
    Op.blockHeightUpd 4, Op.statusUpd ⟨2⟩, Op.nodeTypeUpd NodeType.client]

/-! ### Lemmas about the replay-cache map -/

theorem SeenMap.lookup_insert_self (m : SeenMap) (k : Nat × Nat) (v : Nat) :
    SeenMap.lookup (SeenMap.insert m k v) k = some v := by
  induction m with
  | nil => simp [SeenMap.insert, SeenMap.lookup]
  | cons e rest ih =>
    by_cases hek : e.1 = k
    · simp [SeenMap.insert, hek, SeenMap.lookup]
    · simp [SeenMap.insert, hek, SeenMap.lookup, ih]

theorem SeenMap.lookup_insert_ne (m : SeenMap) (k k' : Nat × Nat) (v : Nat)
    (hne : k' ≠ k) :
    SeenMap.lookup (SeenMap.insert m k v) k' = SeenMap.lookup m k' := by
  induction m with
  | nil => simp [SeenMap.insert, SeenMap.lookup, Ne.symm hne]
  | cons e rest ih =>
    by_cases hek : e.1 = k
    · simp [SeenMap.insert, hek, SeenMap.lookup, Ne.symm hne]
    · simp only [SeenMap.insert, hek, if_false, SeenMap.lookup]
      by_cases hx : e.1 = k'
      · simp [hx]
      · simp [hx, ih]

theorem SeenMap.length_insert_of_lookup_some (m : SeenMap) (k : Nat × Nat)
    (v t : Nat) (hmem : SeenMap.lookup m k = some t) :
    (SeenMap.insert m k v).length = m.length := by
  induction m with
  | nil => simp [SeenMap.lookup] at hmem
  | cons e rest ih =>
    by_cases hek : e.1 = k
    · simp [SeenMap.insert, hek]
    · simp only [SeenMap.lookup, hek, if_false] at hmem
      simp [SeenMap.insert, hek, ih hmem]

theorem SeenMap.length_le_length_insert (m : SeenMap) (k : Nat × Nat) (v : Nat) :
    m.length ≤ (SeenMap.insert m k v).length := by
  induction m with
  | nil => simp [SeenMap.insert]
  | cons e rest ih =>
    by_cases hek : e.1 = k
    · simp [SeenMap.insert, hek]
    · simpa [SeenMap.insert, hek] using ih

theorem SeenMap.lookup_insert_isSome (m : SeenMap) (k k' : Nat × Nat) (v : Nat)
    (hs : (SeenMap.lookup m k').isSome) :
    (SeenMap.lookup (SeenMap.insert m k v) k').isSome := by
  by_cases hkk : k' = k
  · subst hkk
    simp [SeenMap.lookup_insert_self]
  · rw [SeenMap.lookup_insert_ne m k k' v hkk]
    exact hs

theorem SeenMap.mem_keys_insert (m : SeenMap) (k : Nat × Nat) (v : Nat)
    (x : Nat × Nat) :
    (x ∈ (SeenMap.insert m k v).map Prod.fst) ↔ x ∈ m.map Prod.fst ∨ x = k := by
  induction m with
  | nil => simp [SeenMap.insert]
  | cons e rest ih =>
    by_cases hek : e.1 = k
    · subst hek
      simp [SeenMap.insert]
      tauto
    · simp [SeenMap.insert, hek, ih]
      tauto

theorem SeenMap.keys_insert_nodup (m : SeenMap) (k : Nat × Nat) (v : Nat)
    (hnd : (m.map Prod.fst).Nodup) :
    ((SeenMap.insert m k v).map Prod.fst).Nodup := by
  induction m with
  | nil => simp [SeenMap.insert]
  | cons e rest ih =>
    simp only [List.map_cons, List.nodup_cons] at hnd
    by_cases hek : e.1 = k
    · subst hek
      simpa [SeenMap.insert, List.nodup_cons] using hnd
    · have hmem : e.1 ∉ (SeenMap.insert rest k v).map Prod.fst := by
        rw [SeenMap.mem_keys_insert]
        rintro (hin | heq)
        · exact hnd.1 hin
        · exact hek heq
      simp only [SeenMap.insert, hek, if_false, List.map_cons, List.nodup_cons]
      exact ⟨hmem, ih hnd.2⟩

/-- Reading the cache after `insert_seen_message` through any alias of the
same record yields the map with the new pair inserted. -/
theorem Peer.seenMessages_insertSeenMessage (h : Heap) (p : Peer)
    (id n now : Nat) :
    Peer.seenMessages (Peer.insertSeenMessage h p id n now) p
      = SeenMap.insert (Peer.seenMessages h p) (id, n) now := by
  simp [Peer.seenMessages, Peer.insertSeenMessage]

/-- One operation never changes the identity fields of the record. -/
theorem applyOp_side_addr (s : Heap × Peer) (op : Op) :
    (applyOp s op).2.side = s.2.side
    ∧ (applyOp s op).2.listening_addr = s.2.listening_addr := by
  obtain ⟨h, p⟩ := s
  cases op <;>
    simp [applyOp, Peer.setVersion, Peer.setNodeType, Peer.setStatus]

/-- No sequence of operations changes the identity fields of the record. -/
theorem runOps_side_addr (s : Heap × Peer) (ops : List Op) :
    (runOps s ops).2.side = s.2.side
    ∧ (runOps s ops).2.listening_addr = s.2.listening_addr := by
  induction ops generalizing s with
  | nil => exact ⟨rfl, rfl⟩
  | cons op ops ih =>
    have h1 := applyOp_side_addr s op
    have h2 := ih (applyOp s op)
    exact ⟨h2.1.trans h1.1, h2.2.trans h1.2⟩

/-- One operation keeps every present replay-cache key present and never
shrinks the cache. -/
theorem applyOp_seen (s : Heap × Peer) (op : Op) (key : Nat × Nat) :
    ((SeenMap.lookup (Peer.seenMessages s.1 s.2) key).isSome →
      (SeenMap.lookup
        (Peer.seenMessages (applyOp s op).1 (applyOp s op).2) key).isSome)
    ∧ (Peer.seenMessages s.1 s.2).length
        ≤ (Peer.seenMessages (applyOp s op).1 (applyOp s op).2).length := by
  obtain ⟨h, p⟩ := s
  cases op with
  | messageSeen id n now =>
    simp only [applyOp, Peer.seenMessages_insertSeenMessage]
    exact ⟨SeenMap.lookup_insert_isSome _ _ _ _, SeenMap.length_le_length_insert _ _ _⟩
  | lastSeenUpd t => exact ⟨fun hs => hs, le_refl _⟩
  | versionUpd v => exact ⟨fun hs => hs, le_refl _⟩
  | nodeTypeUpd k => exact ⟨fun hs => hs, le_refl _⟩
  | statusUpd st => exact ⟨fun hs => hs, le_refl _⟩
  | blockHeightUpd b => exact ⟨fun hs => hs, le_refl _⟩

/-- No sequence of operations removes a replay-cache key or shrinks the
cache. -/
theorem runOps_seen (s : Heap × Peer) (ops : List Op) (key : Nat × Nat) :
    ((SeenMap.lookup (Peer.seenMessages s.1 s.2) key).isSome →
      (SeenMap.lookup
        (Peer.seenMessages (runOps s ops).1 (runOps s ops).2) key).isSome)
    ∧ (Peer.seenMessages s.1 s.2).length
        ≤ (Peer.seenMessages (runOps s ops).1 (runOps s ops).2).length := by
  induction ops generalizing s with
  | nil => exact ⟨fun hs => hs, le_refl _⟩
  | cons op ops ih =>
    have h1 := applyOp_seen s op key
    have h2 := ih (applyOp s op)
    exact ⟨fun hs => h2.1 (h1.1 hs), le_trans h1.2 h2.2⟩

/-! ### The claims -/

/-- C1: `message_frequency()` returns exactly the number of cache entries
whose age (now minus the stored timestamp) is at most the fixed 5-second
window; in particular, once the clock is more than the window past every
stored timestamp with no further inserts, it returns 0. -/
theorem claim_C1 (h : Heap) (p : Peer) (now : Nat) :
    Peer.messageFrequency h p now
      = (Peer.seenMessages h p).countP (fun e => decide (now - e.2 ≤ 5))
    ∧ ((∀ e ∈ Peer.seenMessages h p, e.2 + 5 < now) →
        Peer.messageFrequency h p now = 0) := by
  constructor
  · rw [Peer.messageFrequency, List.countP_eq_length_filter]
  · intro hall
    rw [Peer.messageFrequency, List.length_eq_zero, List.filter_eq_nil_iff]
    intro e he
    have h6 := hall e he
    simp only [decide_eq_true_eq]
    show ¬ ((now : Nat) - (e.2 : Nat) ≤ (5 : Nat))
    omega

/-- Witness for C1: in the concrete state the single cache entry is stamped
100, every entry is more than the window older than instant 200, and the
message frequency at 200 is 0. -/
theorem claim_C1_witness :
    (∀ e ∈ Peer.seenMessages hW pW, e.2 + 5 < 200)
    ∧ Peer.messageFrequency hW pW 200 = 0 :=
  ⟨by decide, (claim_C1 hW pW 200).2 (by decide)⟩

/-- C2: calling `insert_seen_message` a second time with the same
(message ID, nonce) pair overwrites the stored timestamp rather than adding
a second entry: the stored value is the second timestamp, the cache size is
unchanged by the second call, and keys stay unique. -/
theorem claim_C2 (h : Heap) (p : Peer) (id n t1 t2 : Nat)
    (hnd : ((Peer.seenMessages h p).map Prod.fst).Nodup) :
    SeenMap.lookup
        (Peer.seenMessages
          (Peer.insertSeenMessage (Peer.insertSeenMessage h p id n t1) p id n t2) p)
        (id, n) = some t2
    ∧ (Peer.seenMessages
          (Peer.insertSeenMessage (Peer.insertSeenMessage h p id n t1) p id n t2) p).length
        = (Peer.seenMessages (Peer.insertSeenMessage h p id n t1) p).length
    ∧ ((Peer.seenMessages
          (Peer.insertSeenMessage (Peer.insertSeenMessage h p id n t1) p id n t2) p).map
        Prod.fst).Nodup := by
  rw [Peer.seenMessages_insertSeenMessage, Peer.seenMessages_insertSeenMessage]
  refine ⟨SeenMap.lookup_insert_self _ _ _, ?_, ?_⟩
  · exact SeenMap.length_insert_of_lookup_some _ _ _ t1
      (SeenMap.lookup_insert_self _ _ _)
  · exact SeenMap.keys_insert_nodup _ _ _ (SeenMap.keys_insert_nodup _ _ _ hnd)

/-- Witness for C2: starting with the freshly allocated (empty, hence
duplicate-free) cache, recording (7, 42) at 100 and again at 101 leaves one
entry, stamped 101. -/
theorem claim_C2_witness :
    ((Peer.seenMessages stateW.1 pW).map Prod.fst).Nodup
    ∧ (SeenMap.lookup
          (Peer.seenMessages
            (Peer.insertSeenMessage (Peer.insertSeenMessage stateW.1 pW 7 42 100) pW 7 42 101) pW)
          (7, 42) = some 101
        ∧ (Peer.seenMessages
              (Peer.insertSeenMessage (Peer.insertSeenMessage stateW.1 pW 7 42 100) pW 7 42 101) pW).length
            = (Peer.seenMessages (Peer.insertSeenMessage stateW.1 pW 7 42 100) pW).length
        ∧ ((Peer.seenMessages
              (Peer.insertSeenMessage (Peer.insertSeenMessage stateW.1 pW 7 42 100) pW 7 42 101) pW).map
            Prod.fst).Nodup) :=
  ⟨by decide, claim_C2 stateW.1 pW 7 42 100 101 (by decide)⟩

/-- C3: for every peer (hence for each of the four node-type variants),
exactly one of `is_beacon`, `is_validator`, `is_prover`, `is_client` returns
true and the other three return false. -/
theorem claim_C3 (p : Peer) :
    (p.is_beacon = true ∧ p.is_validator = false
      ∧ p.is_prover = false ∧ p.is_client = false)
    ∨ (p.is_beacon = false ∧ p.is_validator = true
      ∧ p.is_prover = false ∧ p.is_client = false)
    ∨ (p.is_beacon = false ∧ p.is_validator = false
      ∧ p.is_prover = true ∧ p.is_client = false)
    ∨ (p.is_beacon = false ∧ p.is_validator = false
      ∧ p.is_prover = false ∧ p.is_client = true) := by
  cases hk : p.node_type <;>
    simp [Peer.is_beacon, Peer.is_validator, Peer.is_prover, Peer.is_client, hk,
      NodeType.is_beacon, NodeType.is_validator, NodeType.is_prover,
      NodeType.is_client]

/-- C4: `set_last_seen(T)` followed by `last_seen()` returns exactly T for
every T — the write is unconditional, with no monotonicity check or
clamping, so this holds in particular for a T earlier than the stored
value. -/
theorem claim_C4 (h : Heap) (p : Peer) (t : Instant) :
    Peer.lastSeen (Peer.setLastSeen h p t) p = t := by
  simp [Peer.lastSeen, Peer.setLastSeen]

/-- C5: a freshly constructed peer has block height 0, last-seen equal to
the construction instant, and an empty seen-messages cache, so its message
frequency is 0 at any instant. -/
theorem claim_C5 (h : Heap) (side : ConnectionSide) (addr : SocketAddr)
    (v : Nat) (k : NodeType) (s : RawStatus) (now now2 : Instant) :
    Peer.blockHeight (Peer.new h side addr v k s now).1
        (Peer.new h side addr v k s now).2 = 0
    ∧ Peer.lastSeen (Peer.new h side addr v k s now).1
        (Peer.new h side addr v k s now).2 = now
    ∧ Peer.seenMessages (Peer.new h side addr v k s now).1
        (Peer.new h side addr v k s now).2 = []
    ∧ Peer.messageFrequency (Peer.new h side addr v k s now).1
        (Peer.new h side addr v k s now).2 now2 = 0 := by
  refine ⟨?_, ?_, ?_, ?_⟩ <;>
    simp [Peer.new, Peer.blockHeight, Peer.lastSeen, Peer.seenMessages,
      Peer.messageFrequency]

/-- C6: the identity fields are immutable: `ip()` and the connection side
return exactly the address and direction supplied to `new`, and no sequence
of mutating operations ever changes them afterward. -/
theorem claim_C6 (h : Heap) (side : ConnectionSide) (addr : SocketAddr)
    (v : Nat) (k : NodeType) (s : RawStatus) (now : Nat) (ops : List Op) :
    Peer.ip (Peer.new h side addr v k s now).2 = addr
    ∧ (Peer.new h side addr v k s now).2.side = side
    ∧ Peer.ip (runOps (Peer.new h side addr v k s now) ops).2 = addr
    ∧ (runOps (Peer.new h side addr v k s now) ops).2.side = side := by
  have hr := runOps_side_addr (Peer.new h side addr v k s now) ops
  refine ⟨rfl, rfl, ?_, ?_⟩
  · rw [Peer.ip, hr.2]
    exact rfl
  · rw [hr.1]
    exact rfl

/-- C7: entries are never removed from the seen-messages cache: across every
sequence of operations, a key once present stays present and the cache size
never decreases. -/
theorem claim_C7 (h : Heap) (p : Peer) (ops : List Op) (key : Nat × Nat)
    (t : Nat) (hk : SeenMap.lookup (Peer.seenMessages h p) key = some t) :
    (SeenMap.lookup
        (Peer.seenMessages (runOps (h, p) ops).1 (runOps (h, p) ops).2)
        key).isSome
    ∧ (Peer.seenMessages h p).length
        ≤ (Peer.seenMessages (runOps (h, p) ops).1 (runOps (h, p) ops).2).length := by
  have hr := runOps_seen (h, p) ops key
  exact ⟨hr.1 (by rw [hk]; rfl), hr.2⟩

/-- Witness for C7: key (7, 42), present after the initial insert, is still
present after a concrete sequence of all six operation kinds, and the cache
did not shrink. -/
theorem claim_C7_witness :
    (SeenMap.lookup
        (Peer.seenMessages (runOps (hW, pW) opsW).1 (runOps (hW, pW) opsW).2)
        (7, 42)).isSome
    ∧ (Peer.seenMessages hW pW).length
        ≤ (Peer.seenMessages (runOps (hW, pW) opsW).1 (runOps (hW, pW) opsW).2).length :=
  claim_C7 hW pW opsW (7, 42) 100 (by decide)

/-- C8: every mutation touches exactly one field: `set_last_seen` writes only
the last-seen cell, `set_version` only the version scalar, `set_node_type`
only the node-type scalar, `set_status` only the status scalar, and
`insert_seen_message` only the seen-messages cell; every other field of the
record is unchanged by each operation. -/
theorem claim_C8 (h : Heap) (p : Peer) (t v : Nat) (k : NodeType)
    (s : RawStatus) (id n now : Nat) :
    Peer.lastSeen (Peer.setLastSeen h p t) p = t
    ∧ (Peer.setLastSeen h p t).bhHeap = h.bhHeap
    ∧ (Peer.setLastSeen h p t).smHeap = h.smHeap
    ∧ (Peer.setVersion p v).version = v
    ∧ (Peer.setVersion p v).side = p.side
    ∧ (Peer.setVersion p v).listening_addr = p.listening_addr
    ∧ (Peer.setVersion p v).last_seen = p.last_seen
    ∧ (Peer.setVersion p v).node_type = p.node_type
    ∧ (Peer.setVersion p v).status = p.status
    ∧ (Peer.setVersion p v).block_height = p.block_height
    ∧ (Peer.setVersion p v).seen_messages = p.seen_messages
    ∧ (Peer.setNodeType p k).node_type = k
    ∧ (Peer.setNodeType p k).side = p.side
    ∧ (Peer.setNodeType p k).listening_addr = p.listening_addr
    ∧ (Peer.setNodeType p k).last_seen = p.last_seen
    ∧ (Peer.setNodeType p k).version = p.version
    ∧ (Peer.setNodeType p k).status = p.status
    ∧ (Peer.setNodeType p k).block_height = p.block_height
    ∧ (Peer.setNodeType p k).seen_messages = p.seen_messages
    ∧ (Peer.setStatus p s).status = s
    ∧ (Peer.setStatus p s).side = p.side
    ∧ (Peer.setStatus p s).listening_addr = p.listening_addr
    ∧ (Peer.setStatus p s).last_seen = p.last_seen
    ∧ (Peer.setStatus p s).version = p.version
    ∧ (Peer.setStatus p s).node_type = p.node_type
    ∧ (Peer.setStatus p s).block_height = p.block_height
    ∧ (Peer.setStatus p s).seen_messages = p.seen_messages
    ∧ Peer.seenMessages (Peer.insertSeenMessage h p id n now) p
        = SeenMap.insert (Peer.seenMessages h p) (id, n) now
    ∧ (Peer.insertSeenMessage h p id n now).lsHeap = h.lsHeap
    ∧ (Peer.insertSeenMessage h p id n now).bhHeap = h.bhHeap := by
  refine ⟨?_, rfl, rfl,
    rfl, rfl, rfl, rfl, rfl, rfl, rfl, rfl,
    rfl, rfl, rfl, rfl, rfl, rfl, rfl, rfl,
    rfl, rfl, rfl, rfl, rfl, rfl, rfl, rfl,
    ?_, rfl, rfl⟩
  · simp [Peer.lastSeen, Peer.setLastSeen]
  · exact Peer.seenMessages_insertSeenMessage h p id n now

/-- C9: insertions with distinct (message ID, nonce) keys are independent:
either order yields the same final cache contents pointwise, and both
entries are present under their respective timestamps. -/
theorem claim_C9 (h : Heap) (p : Peer) (id1 n1 id2 n2 t1 t2 : Nat)
    (hne : (id1, n1) ≠ (id2, n2)) :
    (∀ k, SeenMap.lookup
        (Peer.seenMessages
          (Peer.insertSeenMessage (Peer.insertSeenMessage h p id1 n1 t1) p id2 n2 t2) p) k
      = SeenMap.lookup
        (Peer.seenMessages
          (Peer.insertSeenMessage (Peer.insertSeenMessage h p id2 n2 t2) p id1 n1 t1) p) k)
    ∧ SeenMap.lookup
        (Peer.seenMessages
          (Peer.insertSeenMessage (Peer.insertSeenMessage h p id1 n1 t1) p id2 n2 t2) p)
        (id1, n1) = some t1
    ∧ SeenMap.lookup
        (Peer.seenMessages
          (Peer.insertSeenMessage (Peer.insertSeenMessage h p id1 n1 t1) p id2 n2 t2) p)
        (id2, n2) = some t2
    ∧ SeenMap.lookup
        (Peer.seenMessages
          (Peer.insertSeenMessage (Peer.insertSeenMessage h p id2 n2 t2) p id1 n1 t1) p)
        (id1, n1) = some t1
    ∧ SeenMap.lookup
        (Peer.seenMessages
          (Peer.insertSeenMessage (Peer.insertSeenMessage h p id2 n2 t2) p id1 n1 t1) p)
        (id2, n2) = some t2 := by
  simp only [Peer.seenMessages_insertSeenMessage]
  refine ⟨?_, ?_, ?_, ?_, ?_⟩
  · intro k
    by_cases h1 : k = (id1, n1)
    · subst h1
      rw [SeenMap.lookup_insert_ne _ _ _ _ hne, SeenMap.lookup_insert_self,
        SeenMap.lookup_insert_self]
    · by_cases h2 : k = (id2, n2)
      · subst h2
        rw [SeenMap.lookup_insert_self,
          SeenMap.lookup_insert_ne _ _ _ _ (Ne.symm hne),
          SeenMap.lookup_insert_self]
      · rw [SeenMap.lookup_insert_ne _ _ _ _ h2, SeenMap.lookup_insert_ne _ _ _ _ h1,
          SeenMap.lookup_insert_ne _ _ _ _ h1, SeenMap.lookup_insert_ne _ _ _ _ h2]
  · rw [SeenMap.lookup_insert_ne _ _ _ _ hne, SeenMap.lookup_insert_self]
  · exact SeenMap.lookup_insert_self _ _ _
  · exact SeenMap.lookup_insert_self _ _ _
  · rw [SeenMap.lookup_insert_ne _ _ _ _ (Ne.symm hne), SeenMap.lookup_insert_self]

/-- Witness for C9: the distinct keys (7, 42) and (9, 1), inserted in one
order, are both present with their own timestamps. -/
theorem claim_C9_witness :
    (7, 42) ≠ ((9, 1) : Nat × Nat)
    ∧ SeenMap.lookup
        (Peer.seenMessages
          (Peer.insertSeenMessage (Peer.insertSeenMessage hW pW 7 42 100) pW 9 1 101) pW)
        (9, 1) = some 101 :=
  ⟨by decide, (claim_C9 hW pW 7 42 9 1 100 101 (by decide)).2.2.1⟩

/-- C10: cloning shares the lock-wrapped state and snapshots the scalars:
the clone holds the same three cell identifiers, so a last-seen,
block-height or seen-message update through the clone is observable through
the original, while a version, node-type or status update applied to one
copy leaves the other copy's scalar unchanged. -/
theorem claim_C10 (h : Heap) (p : Peer) (t b v id n now : Nat) (k : NodeType)
    (s : RawStatus) (hv : v ≠ p.version) (hkne : k ≠ p.node_type)
    (hsne : s ≠ p.status) :
    (Peer.clone p).last_seen = p.last_seen
    ∧ (Peer.clone p).block_height = p.block_height
    ∧ (Peer.clone p).seen_messages = p.seen_messages
    ∧ Peer.lastSeen (Peer.setLastSeen h (Peer.clone p) t) p = t
    ∧ Peer.blockHeight (Peer.setBlockHeight h (Peer.clone p) b) p = b
    ∧ SeenMap.lookup
        (Peer.seenMessages (Peer.insertSeenMessage h (Peer.clone p) id n now) p)
        (id, n) = some now
    ∧ (Peer.clone p).version = p.version
    ∧ (Peer.clone p).node_type = p.node_type
    ∧ (Peer.clone p).status = p.status
    ∧ (Peer.setVersion (Peer.clone p) v).version ≠ p.version
    ∧ (Peer.setNodeType (Peer.clone p) k).node_type ≠ p.node_type
    ∧ (Peer.setStatus (Peer.clone p) s).status ≠ p.status := by
  refine ⟨rfl, rfl, rfl, ?_, ?_, ?_, rfl, rfl, rfl, hv, hkne, hsne⟩
  · simp [Peer.clone, Peer.lastSeen, Peer.setLastSeen]
  · simp [Peer.clone, Peer.blockHeight, Peer.setBlockHeight]
  · rw [Peer.clone, Peer.seenMessages_insertSeenMessage]
    exact SeenMap.lookup_insert_self _ _ _

/-- Witness for C10 at the concrete validator peer: recording a message
through the clone is visible through the original, while bumping the
version on the clone leaves the original's version 12 behind. -/
theorem claim_C10_witness :
    (13 ≠ pW.version ∧ NodeType.client ≠ pW.node_type
      ∧ RawStatus.mk 1 ≠ pW.status)
    ∧ SeenMap.lookup
        (Peer.seenMessages (Peer.insertSeenMessage hW (Peer.clone pW) 9 1 120) pW)
        (9, 1) = some 120
    ∧ (Peer.setVersion (Peer.clone pW) 13).version ≠ pW.version := by
  have hc := claim_C10 hW pW 150 4 13 9 1 120 NodeType.client ⟨1⟩
    (by decide) (by decide) (by decide)
  exact ⟨⟨by decide, by decide, by decide⟩,
    hc.2.2.2.2.2.1, hc.2.2.2.2.2.2.2.2.2.1⟩

end SnarkOSPeer
